import Mathlib

/-!
# wazero: listener example, stack iterator, globals, backend selection, host-call slot

A shallow embedding of

* `experimental/listener_example_test.go` (`uniqGoFuncs`, `fakeStackIterator`),
* `internal/wasm/global.go` (`constantGlobal`, `mutableGlobal`),
* `internal/engine/wazevo/machine.go` (`newMachine`),
* the host-call slot exercised by `internal/engine/wazevo/hostmodule_test.go`.

Conventions.  A Go `string` is its byte sequence (`GoString`).  A `uint64` is a natural
number; the code embedded here never does arithmetic on one, so no reduction modulo `2^64`
is needed except in the byte transcription of the host-call slot, where the bound is an
explicit hypothesis.  A method with a pointer receiver, or one that reaches a record through
a pointer or a map, returns the record after the call next to its result.
-/

namespace Wazero

/-! ## Go strings -/

/-- A Go string: a finite sequence of bytes. -/
abbrev GoString := List Nat

/-- The bytes (UTF-8) of a string literal of the source. -/
def goStr (s : String) : GoString := s.toUTF8.data.toList.map UInt8.toNat

/-- Go's `<` on strings: byte-wise lexicographic comparison. -/
def strLess : GoString → GoString → Bool
  | [], [] => false
  | [], _ :: _ => true
  | _ :: _, [] => false
  | a :: as, b :: bs => decide (a < b) || (decide (a = b) && strLess as bs)

/-- One insertion step of the sort: `x` goes in front of the first element that is not
below it. -/
def insertString (x : GoString) : List GoString → List GoString
  | [] => [x]
  | y :: ys => if strLess y x then y :: insertString x ys else x :: y :: ys

/-- Go's `sort.Strings` (standard library): sorts a slice of strings in increasing order.
Strings that compare equal are identical, so every sorting algorithm gives this result. -/
def sortStrings : List GoString → List GoString
  | [] => []
  | x :: xs => insertString x (sortStrings xs)

/-! ## `experimental/listener_example_test.go`: `uniqGoFuncs` -/

/-- What a listener sees of an `api.FunctionDefinition`: the result of `DebugName()` and of
`GoFunction()`, which is `nil` (`none`) for a function that is not a host Go function. -/
structure FunctionDefinition where
  debugName : GoString
  goFunction : Option Nat
deriving DecidableEq, Repr

/-- The method `DebugName()` of a function definition. -/
def FunctionDefinition.DebugName (d : FunctionDefinition) : GoString := d.debugName

/-- The method `GoFunction()` of a function definition. -/
def FunctionDefinition.GoFunction (d : FunctionDefinition) : Option Nat := d.goFunction

/-- The type `uniqGoFuncs`, a `map[string]struct{}`: a finite set of keys. -/
abbrev uniqGoFuncs := Finset GoString

/-- The literal `uniqGoFuncs{}`. -/
def uniqGoFuncs.empty : uniqGoFuncs := ∅

/-- The orders in which `for k := range u` may visit the keys of `u`: every key once, in an
order Go leaves unspecified. -/
def IsRangeOrder (u : uniqGoFuncs) (order : List GoString) : Prop :=
  order.Nodup ∧ order.toFinset = u

instance (u : uniqGoFuncs) (order : List GoString) : Decidable (IsRangeOrder u order) := by
  unfold IsRangeOrder
  exact inferInstance

/-- The method `callees`: the keys are appended to `ret` in the order the `range` loop visits
them, then `ret` is sorted.  Returns `ret` and the map after the call. -/
def uniqGoFuncs.callees (u : uniqGoFuncs) (order : List GoString) :
    List GoString × uniqGoFuncs :=
  let ret := order.foldl (fun ret k => ret ++ [k]) []
  (sortStrings ret, u)

/-- The method `NewFunctionListener`: `nil` when `def.GoFunction() == nil`, else the receiver
itself.  Returns the listener and the map after the call. -/
def uniqGoFuncs.NewFunctionListener (u : uniqGoFuncs) (def_ : FunctionDefinition) :
    Option uniqGoFuncs × uniqGoFuncs :=
  if def_.GoFunction = none then (none, u) else (some u, u)

/-- The method `Before`: `u[def.DebugName()] = struct{}{}`.  The context, module, parameters
and stack iterator are ignored by the source. -/
def uniqGoFuncs.Before (u : uniqGoFuncs) (def_ : FunctionDefinition) : uniqGoFuncs :=
  insert def_.DebugName u

/-- The method `After`: empty body. -/
def uniqGoFuncs.After (u : uniqGoFuncs) (_def : FunctionDefinition) : uniqGoFuncs := u

/-- The method `Abort`: empty body. -/
def uniqGoFuncs.Abort (u : uniqGoFuncs) (_def : FunctionDefinition) : uniqGoFuncs := u

/-- A notification the framework delivers to a listener. -/
inductive Notification where
  | before (d : FunctionDefinition)
  | after (d : FunctionDefinition)
  | abort (d : FunctionDefinition)
deriving DecidableEq, Repr

/-- Delivery of one notification to the listener `u`. -/
def deliver (u : uniqGoFuncs) : Notification → uniqGoFuncs
  | .before d => u.Before d
  | .after d => u.After d
  | .abort d => u.Abort d

/-- Delivery of a sequence of notifications, first to last. -/
def deliverAll (u : uniqGoFuncs) (ns : List Notification) : uniqGoFuncs :=
  ns.foldl deliver u

/-- The debug names carried by the `Before` notifications of a sequence, in order. -/
def beforeNames : List Notification → List GoString
  | [] => []
  | .before d :: ns => d.DebugName :: beforeNames ns
  | .after _ :: ns => beforeNames ns
  | .abort _ :: ns => beforeNames ns

/-- The notifications `n` rounds of the loop of `Example_customListenerFactory` deliver for
the two host functions: Before and After for random_get, then for fd_write, in each round. -/
def exampleNotifications : Nat → List Notification
  | 0 => []
  | n + 1 =>
    [Notification.before ⟨goStr "wasi_snapshot_preview1.random_get", some 0⟩,
     Notification.after ⟨goStr "wasi_snapshot_preview1.random_get", some 0⟩,
     Notification.before ⟨goStr "wasi_snapshot_preview1.fd_write", some 1⟩,
     Notification.after ⟨goStr "wasi_snapshot_preview1.fd_write", some 1⟩] ++
    exampleNotifications n

/-! ## `experimental/listener_example_test.go`: `fakeStackIterator` -/

/-- The type `mockFunctionDefinition`; its embedded `*wasm.FunctionDefinition` is never set. -/
structure mockFunctionDefinition where
  debugName : GoString
deriving DecidableEq, Repr

/-- The method `DebugName` of `mockFunctionDefinition`. -/
def mockFunctionDefinition.DebugName (f : mockFunctionDefinition) : GoString := f.debugName

/-- The type `fakeStackIterator`.  The interface field `def` is `none` when `nil`;
a `nil` slice and an empty slice are both the empty list. -/
structure fakeStackIterator where
  iteration : Int
  def_ : Option mockFunctionDefinition
  args : List Nat
  pc : Nat
  sourceOffset : Nat
deriving DecidableEq, Repr

/-- The zero value `&fakeStackIterator{}`. -/
def fakeStackIterator.zero : fakeStackIterator :=
  { iteration := 0, def_ := none, args := [], pc := 0, sourceOffset := 0 }

/-- Go's `int` (64 bits) after an arithmetic operation: two's complement wrap-around. -/
def wrapInt (x : Int) : Int :=
  (x + 9223372036854775808) % 18446744073709551616 - 9223372036854775808

/-- The tail of `Next` after the `switch`: `s.iteration++; return true`. -/
def fakeStackIterator.advance (s : fakeStackIterator) : Bool × fakeStackIterator :=
  (true, { s with iteration := wrapInt (s.iteration + 1) })

/-- The method `Next`: the result and the iterator after the call.  The `switch` has no
default case, so any other value of `iteration` falls through to the increment. -/
def fakeStackIterator.Next (s : fakeStackIterator) : Bool × fakeStackIterator :=
  if s.iteration = 0 then
    fakeStackIterator.advance
      { s with def_ := some { debugName := goStr "fn0" }, args := [1, 2, 3],
               pc := 5890831, sourceOffset := 1234 }
  else if s.iteration = 1 then
    fakeStackIterator.advance
      { s with def_ := some { debugName := goStr "fn1" }, args := [],
               pc := 5899822, sourceOffset := 7286 }
  else if s.iteration = 2 then
    fakeStackIterator.advance
      { s with def_ := some { debugName := goStr "fn2" }, args := [4],
               pc := 6820312, sourceOffset := 935891 }
  else if s.iteration = 3 then
    (false, s)
  else
    fakeStackIterator.advance s

/-- The type `internalFunction`. -/
structure internalFunction where
  definition : Option mockFunctionDefinition
  sourceOffset : Nat
deriving DecidableEq, Repr

/-- The method `Function`: the result and the iterator after the call. -/
def fakeStackIterator.Function (s : fakeStackIterator) : internalFunction × fakeStackIterator :=
  ({ definition := s.def_, sourceOffset := s.sourceOffset }, s)

/-- The method `Parameters`: the result and the iterator after the call. -/
def fakeStackIterator.Parameters (s : fakeStackIterator) : List Nat × fakeStackIterator :=
  (s.args, s)

/-- The method `ProgramCounter`: the result and the iterator after the call. -/
def fakeStackIterator.ProgramCounter (s : fakeStackIterator) : Nat × fakeStackIterator :=
  (s.pc, s)

/-- The method `Definition` of `internalFunction`. -/
def internalFunction.Definition (f : internalFunction) : Option mockFunctionDefinition :=
  f.definition

/-- The method `SourceOffsetForPC` of `internalFunction`: the program counter is ignored. -/
def internalFunction.SourceOffsetForPC (f : internalFunction) (_pc : Nat) : Nat :=
  f.sourceOffset

/-- What one pass through the body of the loop of `Example_stackIterator` prints. -/
structure Frame where
  function : Option GoString
  parameters : List Nat
  programCounter : Nat
  sourceOffset : Nat
deriving DecidableEq, Repr

/-- The body of the loop of `Example_stackIterator`: the four printed values and the
iterator after the three accessor calls.  `DebugName()` on a `nil` definition has no value. -/
def observe (it : fakeStackIterator) : Frame × fakeStackIterator :=
  let (fn, it1) := it.Function
  let (pc, it2) := it1.ProgramCounter
  let (ps, it3) := it2.Parameters
  ({ function := fn.Definition.map mockFunctionDefinition.DebugName,
     parameters := ps,
     programCounter := pc,
     sourceOffset := fn.SourceOffsetForPC pc }, it3)

/-- The loop `for it.Next() { ... }` of `Example_stackIterator`, with a bound on the number
of calls to `Next`; `none` when the bound is reached before `Next` returns false. -/
def walk : Nat → fakeStackIterator → Option (List Frame)
  | 0, _ => none
  | fuel + 1, it =>
    match it.Next with
    | (false, _) => some []
    | (true, it1) =>
      let (fr, it2) := observe it1
      (walk fuel it2).map (fun rest => fr :: rest)

/-- The iterator after `n` calls to `Next`. -/
def nextN : Nat → fakeStackIterator → fakeStackIterator
  | 0, s => s
  | n + 1, s => nextN n s.Next.2

/-- The states a zero-valued iterator reaches by calls to `Next`. -/
inductive Reachable : fakeStackIterator → Prop where
  | zero : Reachable fakeStackIterator.zero
  | next {s : fakeStackIterator} : Reachable s → Reachable s.Next.2

/-! ## `internal/wasm/global.go` -/

/-- The type `GlobalType` as far as `global.go` reads it: the field `ValType`
(an `api.ValueType`, a byte) and, in `other`, whatever else the record holds. -/
structure GlobalType (α : Type) where
  ValType : Nat
  other : α
deriving DecidableEq, Repr

/-- The type `GlobalInstance` as far as `global.go` reads and writes it: the fields `Type`
and `Val` (a `uint64`) and, in `other`, whatever else the record holds. -/
structure GlobalInstance (α β : Type) where
  Type_ : GlobalType α
  Val : Nat
  other : β
deriving DecidableEq, Repr

/-- The method `String` of `*GlobalInstance`, which `global.go` calls and does not define.
Its signature is `String() string`, that of a `fmt.Stringer`: it is a parameter of the
development, a function from the record it reads to the string it returns. -/
abbrev GlobalString (α β : Type) := GlobalInstance α β → GoString

/-- The type `constantGlobal`: `g` is the record its pointer refers to. -/
structure constantGlobal (α β : Type) where
  g : GlobalInstance α β

/-- The type `mutableGlobal`: `g` is the record its pointer refers to. -/
structure mutableGlobal (α β : Type) where
  g : GlobalInstance α β

/-- The method `Type` of `constantGlobal`: the result and the record after the call. -/
def constantGlobal.Type_ {α β : Type} (g : constantGlobal α β) : Nat × GlobalInstance α β :=
  (g.g.Type_.ValType, g.g)

/-- The method `Get` of `constantGlobal`: the result and the record after the call. -/
def constantGlobal.Get {α β : Type} (g : constantGlobal α β) : Nat × GlobalInstance α β :=
  (g.g.Val, g.g)

/-- The method `String` of `constantGlobal`: `g.g.String()`; the result and the record after
the call. -/
def constantGlobal.String {α β : Type} (gString : GlobalString α β) (g : constantGlobal α β) :
    GoString × GlobalInstance α β :=
  (gString g.g, g.g)

/-- The method `Type` of `mutableGlobal`: the result and the record after the call. -/
def mutableGlobal.Type_ {α β : Type} (g : mutableGlobal α β) : Nat × GlobalInstance α β :=
  (g.g.Type_.ValType, g.g)

/-- The method `Get` of `mutableGlobal`: the result and the record after the call. -/
def mutableGlobal.Get {α β : Type} (g : mutableGlobal α β) : Nat × GlobalInstance α β :=
  (g.g.Val, g.g)

/-- The method `String` of `mutableGlobal`: `g.g.String()`; the result and the record after
the call. -/
def mutableGlobal.String {α β : Type} (gString : GlobalString α β) (g : mutableGlobal α β) :
    GoString × GlobalInstance α β :=
  (gString g.g, g.g)

/-- The method `Set` of `mutableGlobal`: `g.g.Val = v`; the record after the call. -/
def mutableGlobal.Set {α β : Type} (g : mutableGlobal α β) (v : Nat) : GlobalInstance α β :=
  { g.g with Val := v }

/-! ## `internal/engine/wazevo/machine.go` -/

/-- The function `newMachine`: a `switch` on `runtime.GOARCH`.  `arm64NewBackend` is the
machine `arm64.NewBackend()` returns; a panic is `Except.error` with the panic value. -/
def newMachine {M : Type} (GOARCH : GoString) (arm64NewBackend : M) : Except GoString M :=
  if GOARCH = goStr "arm64" then
    Except.ok arm64NewBackend
  else
    Except.error (goStr "unsupported architecture")

/-! ## Host-call slot (`internal/engine/wazevo/hostmodule_test.go`) -/

/-- Modelled from the spec: the boxed callable that `writeIface` stores and `readIface`
restores (both absent from the sources, which hold only their test).  The spec gives it as
"a tagged union / discriminated encoding {type-tag, opaque-data-reference} stored in a
fixed-size slot". -/
structure Iface where
  typeTag : Nat
  dataRef : Nat
deriving DecidableEq, Repr

/-- Modelled from the spec: the "pure, deterministic byte transcription" of one word of
`w` bytes, least significant byte first. -/
def putWord : Nat → Nat → List Nat
  | 0, _ => []
  | w + 1, v => v % 256 :: putWord w (v / 256)

/-- Modelled from the spec: the word of `w` bytes at the start of a byte sequence, least
significant byte first. -/
def getWord : Nat → List Nat → Nat
  | 0, _ => 0
  | _ + 1, [] => 0
  | w + 1, b :: bs => b + 256 * getWord w bs

/-- Modelled from the spec: `writeIface` (the spec's `bind`), absent from the sources.  It
transcribes the type tag and the data reference, `w` bytes each, into the start of `buf` and
leaves the rest of `buf` as it was; `none` when `buf` is too short to hold the two words. -/
def writeIface (w : Nat) (goFn : Iface) (buf : List Nat) : Option (List Nat) :=
  if buf.length < 2 * w then none
  else some (putWord w goFn.typeTag ++ putWord w goFn.dataRef ++ buf.drop (2 * w))

/-- Modelled from the spec: `readIface` (the decoding half of the spec's `invoke`), absent
from the sources.  It reads the two words back; `none` when `buf` is too short. -/
def readIface (w : Nat) (buf : List Nat) : Option Iface :=
  if buf.length < 2 * w then none
  else some { typeTag := getWord w buf, dataRef := getWord w (buf.drop w) }

/-- The method `Call(ctx, stack)` of an `api.GoFunction`: from the host state and the
argument slots to the host state and the slots after the call. -/
abbrev GoFunction (σ : Type) := σ → List Nat → σ × List Nat

/-- Modelled from the spec: the type assertion `.(api.GoFunction)` on a boxed value, which
yields the callable the value refers to, or `none` when the value is not an
`api.GoFunction`. -/
abbrev Host (σ : Type) := Iface → Option (GoFunction σ)

/-- Modelled from the spec: `invoke(slot, argSlots)`, which "decodes the slot back into a
callable and invokes it with the Register-Slot-ABI argument array". -/
def invoke {σ : Type} (host : Host σ) (w : Nat) (slot : List Nat) (st : σ) (args : List Nat) :
    Option (σ × List Nat) :=
  match readIface w slot with
  | none => none
  | some got =>
    match host got with
    | none => none
    | some f => some (f st args)

/-- The test `Test_writeIface_readIface`, where the boxed value of the closure is `goFn` and
the host state is the variable `called`: the value of `called` at the `require.True`. -/
def Test_writeIface_readIface (w : Nat) (goFn : Iface) : Option Bool :=
  let buf := List.replicate 100 0
  let called := false
  let host : Host Bool := fun i => if i = goFn then some (fun _ stack => (true, stack)) else none
  match writeIface w goFn buf with
  | none => none
  | some buf1 =>
    match readIface w buf1 with
    | none => none
    | some got =>
      match host got with
      | none => none
      | some f => some (f called []).1

/-! ## Theorems: stack iterator -/

/-- The four states a walk passes through after the zero state. -/
theorem reachable_cases {s : fakeStackIterator} (h : Reachable s) :
    s = fakeStackIterator.zero ∨ s = fakeStackIterator.zero.Next.2 ∨
    s = fakeStackIterator.zero.Next.2.Next.2 ∨
    s = fakeStackIterator.zero.Next.2.Next.2.Next.2 := by
  induction h with
  | zero => exact Or.inl rfl
  | next _ ih =>
    rcases ih with h | h | h | h
    · subst h; exact Or.inr (Or.inl rfl)
    · subst h; exact Or.inr (Or.inr (Or.inl rfl))
    · subst h; exact Or.inr (Or.inr (Or.inr rfl))
    · subst h; exact Or.inr (Or.inr (Or.inr (by decide)))

/-- A call to `Next` that returns false leaves the iterator as it was. -/
theorem next_false_same (s : fakeStackIterator) (h : s.Next.1 = false) : s.Next.2 = s := by
  unfold fakeStackIterator.Next at h ⊢
  by_cases h0 : s.iteration = 0
  · simp [h0, fakeStackIterator.advance] at h
  · by_cases h1 : s.iteration = 1
    · simp [h1, fakeStackIterator.advance] at h
    · by_cases h2 : s.iteration = 2
      · simp [h2, fakeStackIterator.advance] at h
      · by_cases h3 : s.iteration = 3
        · simp [h3]
        · simp [h0, h1, h2, h3, fakeStackIterator.advance] at h

/-- After a call that returned false, any number of further calls leaves the iterator as it
was. -/
theorem nextN_of_false (s : fakeStackIterator) (h : s.Next.1 = false) (n : Nat) :
    nextN n s = s := by
  induction n with
  | zero => rfl
  | succ n ih => simp only [nextN]; rw [next_false_same s h]; exact ih

/-- Claim C4: from a zero-valued iterator the first three calls to Next return true and the
frames observed after them are fn0 with [1,2,3], 5890831, 1234, then fn1 with [], 5899822,
7286, then fn2 with [4], 6820312, 935891; the fourth call returns false; so the loop of the
example, given room for at least four calls, yields exactly these three frames in order. -/
theorem C4_stack_walk_example :
    (nextN 0 fakeStackIterator.zero).Next.1 = true ∧
    observe (nextN 1 fakeStackIterator.zero) =
      (Frame.mk (some (goStr "fn0")) [1, 2, 3] 5890831 1234, nextN 1 fakeStackIterator.zero) ∧
    (nextN 1 fakeStackIterator.zero).Next.1 = true ∧
    observe (nextN 2 fakeStackIterator.zero) =
      (Frame.mk (some (goStr "fn1")) [] 5899822 7286, nextN 2 fakeStackIterator.zero) ∧
    (nextN 2 fakeStackIterator.zero).Next.1 = true ∧
    observe (nextN 3 fakeStackIterator.zero) =
      (Frame.mk (some (goStr "fn2")) [4] 6820312 935891, nextN 3 fakeStackIterator.zero) ∧
    (nextN 3 fakeStackIterator.zero).Next.1 = false ∧
    (∀ n : Nat, walk (n + 4) fakeStackIterator.zero =
      some [Frame.mk (some (goStr "fn0")) [1, 2, 3] 5890831 1234,
            Frame.mk (some (goStr "fn1")) [] 5899822 7286,
            Frame.mk (some (goStr "fn2")) [4] 6820312 935891]) := by
  refine ⟨by decide, by decide, by decide, by decide, by decide, by decide, by decide, ?_⟩
  intro n
  rfl

/-- Claim C9: in every state a zero-valued iterator reaches by calls to Next the counter is
between 0 and 3, Next returns true exactly when it is below 3 and then adds one to it, and a
call that returns false leaves the whole iterator unchanged, as does every later call, each of
which returns false again.  In any state at all, Function, Parameters and ProgramCounter leave
the iterator unchanged. -/
theorem C9_exhausted_absorbing :
    (∀ s : fakeStackIterator, Reachable s →
      0 ≤ s.iteration ∧ s.iteration ≤ 3 ∧
      (s.Next.1 = true ↔ s.iteration < 3) ∧
      (s.Next.1 = true → s.Next.2.iteration = s.iteration + 1) ∧
      (s.Next.1 = false → s.Next.2 = s ∧
        ∀ n : Nat, (nextN n s.Next.2).Next.1 = false ∧ (nextN n s.Next.2).Next.2 = s)) ∧
    (∀ s : fakeStackIterator,
      s.Function.2 = s ∧ s.Parameters.2 = s ∧ s.ProgramCounter.2 = s) := by
  refine ⟨?_, fun s => ⟨rfl, rfl, rfl⟩⟩
  intro s hs
  have hfalse : s.Next.1 = false → s.Next.2 = s ∧
      ∀ n : Nat, (nextN n s.Next.2).Next.1 = false ∧ (nextN n s.Next.2).Next.2 = s := by
    intro hf
    have hsame := next_false_same s hf
    refine ⟨hsame, fun n => ?_⟩
    rw [hsame, nextN_of_false s hf n]
    exact ⟨hf, hsame⟩
  rcases reachable_cases hs with h | h | h | h
  · subst h; exact ⟨by decide, by decide, by decide, by decide, hfalse⟩
  · subst h; exact ⟨by decide, by decide, by decide, by decide, hfalse⟩
  · subst h; exact ⟨by decide, by decide, by decide, by decide, hfalse⟩
  · subst h; exact ⟨by decide, by decide, by decide, by decide, hfalse⟩

/-- Claim C9 at the exhausted state, three calls after the zero value: the fourth call
returns false and changes nothing, and so do the ten calls after it. -/
theorem C9_exhausted_absorbing_witness :
    Reachable fakeStackIterator.zero.Next.2.Next.2.Next.2 ∧
    fakeStackIterator.zero.Next.2.Next.2.Next.2.iteration = 3 ∧
    fakeStackIterator.zero.Next.2.Next.2.Next.2.Next.1 = false ∧
    (nextN 10 fakeStackIterator.zero.Next.2.Next.2.Next.2.Next.2).Next.1 = false ∧
    (nextN 10 fakeStackIterator.zero.Next.2.Next.2.Next.2.Next.2).Next.2 =
      fakeStackIterator.zero.Next.2.Next.2.Next.2 :=
  have hr : Reachable fakeStackIterator.zero.Next.2.Next.2.Next.2 :=
    Reachable.next (Reachable.next (Reachable.next Reachable.zero))
  have hc := C9_exhausted_absorbing.1 _ hr
  ⟨hr, by decide, by decide, ((hc.2.2.2.2 (by decide)).2 10).1, ((hc.2.2.2.2 (by decide)).2 10).2⟩

/-! ## Theorems: backend selection -/

/-- Claim C3: for every architecture identifier, newMachine returns the arm64 backend when
the identifier is "arm64" and panics with "unsupported architecture" for every other one; it
returns a machine only for "arm64", and then the arm64 backend. -/
theorem C3_newMachine_total {M : Type} (GOARCH : GoString) (arm64NewBackend : M) :
    (GOARCH = goStr "arm64" → newMachine GOARCH arm64NewBackend = Except.ok arm64NewBackend) ∧
    (GOARCH ≠ goStr "arm64" →
      newMachine GOARCH arm64NewBackend = Except.error (goStr "unsupported architecture")) ∧
    (∀ m : M, newMachine GOARCH arm64NewBackend = Except.ok m ↔
      (GOARCH = goStr "arm64" ∧ m = arm64NewBackend)) := by
  unfold newMachine
  by_cases h : GOARCH = goStr "arm64"
  · simp [h, eq_comm]
  · simp [h]

/-- Claim C3 at "arm64", which yields the backend, and at "amd64", which panics. -/
theorem C3_newMachine_total_witness :
    newMachine (goStr "arm64") (7 : Nat) = Except.ok 7 ∧
    goStr "amd64" ≠ goStr "arm64" ∧
    newMachine (goStr "amd64") (7 : Nat) = Except.error (goStr "unsupported architecture") :=
  ⟨(C3_newMachine_total (goStr "arm64") 7).1 rfl, by decide,
   (C3_newMachine_total (goStr "amd64") 7).2.1 (by decide)⟩

/-! ## Theorems: globals -/

/-- Claim C8: Set(v) through a mutableGlobal leaves the record as it was except that Val is
v; Get right after returns v, Type returns what it returned before, and after a later Set(w)
Get returns w. -/
theorem C8_global_set_get {α β : Type} (gi : GlobalInstance α β) (v w : Nat) :
    mutableGlobal.Set (mutableGlobal.mk gi) v = GlobalInstance.mk gi.Type_ v gi.other ∧
    (mutableGlobal.Get (mutableGlobal.mk (mutableGlobal.Set (mutableGlobal.mk gi) v))).1 = v ∧
    (mutableGlobal.Type_ (mutableGlobal.mk (mutableGlobal.Set (mutableGlobal.mk gi) v))).1 =
      (mutableGlobal.Type_ (mutableGlobal.mk gi)).1 ∧
    (mutableGlobal.Get (mutableGlobal.mk
      (mutableGlobal.Set (mutableGlobal.mk (mutableGlobal.Set (mutableGlobal.mk gi) v)) w))).1 =
      w ∧
    mutableGlobal.Set (mutableGlobal.mk (mutableGlobal.Set (mutableGlobal.mk gi) v)) w =
      mutableGlobal.Set (mutableGlobal.mk gi) w :=
  ⟨rfl, rfl, rfl, rfl, rfl⟩

/-- Claim C10: for every record gi, a constantGlobal and a mutableGlobal on gi return the
same from Type (gi.Type.ValType), from Get (gi.Val) and from String (what gi.String()
returns), and after each of these three calls, through either wrapper, the record is gi
unchanged.  After a Set(v) through the mutableGlobal both wrappers again read the same,
v from Get. -/
theorem C10_mutable_reads_as_constant {α β : Type} (gString : GlobalString α β)
    (gi : GlobalInstance α β) (v : Nat) :
    (constantGlobal.Type_ (constantGlobal.mk gi) = mutableGlobal.Type_ (mutableGlobal.mk gi) ∧
      mutableGlobal.Type_ (mutableGlobal.mk gi) = (gi.Type_.ValType, gi)) ∧
    (constantGlobal.Get (constantGlobal.mk gi) = mutableGlobal.Get (mutableGlobal.mk gi) ∧
      mutableGlobal.Get (mutableGlobal.mk gi) = (gi.Val, gi)) ∧
    (constantGlobal.String gString (constantGlobal.mk gi) =
        mutableGlobal.String gString (mutableGlobal.mk gi) ∧
      mutableGlobal.String gString (mutableGlobal.mk gi) = (gString gi, gi)) ∧
    ((constantGlobal.Type_ (constantGlobal.mk gi)).2 = gi ∧
      (constantGlobal.Get (constantGlobal.mk gi)).2 = gi ∧
      (constantGlobal.String gString (constantGlobal.mk gi)).2 = gi ∧
      (mutableGlobal.Type_ (mutableGlobal.mk gi)).2 = gi ∧
      (mutableGlobal.Get (mutableGlobal.mk gi)).2 = gi ∧
      (mutableGlobal.String gString (mutableGlobal.mk gi)).2 = gi) ∧
    (constantGlobal.Get (constantGlobal.mk (mutableGlobal.Set (mutableGlobal.mk gi) v)) =
        mutableGlobal.Get (mutableGlobal.mk (mutableGlobal.Set (mutableGlobal.mk gi) v)) ∧
      (constantGlobal.Get (constantGlobal.mk (mutableGlobal.Set (mutableGlobal.mk gi) v))).1 =
        v ∧
      constantGlobal.Type_ (constantGlobal.mk (mutableGlobal.Set (mutableGlobal.mk gi) v)) =
        mutableGlobal.Type_ (mutableGlobal.mk (mutableGlobal.Set (mutableGlobal.mk gi) v)) ∧
      constantGlobal.String gString
          (constantGlobal.mk (mutableGlobal.Set (mutableGlobal.mk gi) v)) =
        mutableGlobal.String gString
          (mutableGlobal.mk (mutableGlobal.Set (mutableGlobal.mk gi) v))) :=
  ⟨⟨rfl, rfl⟩, ⟨rfl, rfl⟩, ⟨rfl, rfl⟩, ⟨rfl, rfl, rfl, rfl, rfl, rfl⟩, ⟨rfl, rfl, rfl, rfl⟩⟩

/-! ## Theorems: the listener `uniqGoFuncs` -/

/-- No string is below itself. -/
theorem strLess_irrefl (a : GoString) : strLess a a = false := by
  induction a with
  | nil => rfl
  | cons x xs ih => simp [strLess, ih]

/-- The comparison is transitive. -/
theorem strLess_trans : ∀ a b c : GoString,
    strLess a b = true → strLess b c = true → strLess a c = true
  | [], [], _, h, _ => by simp [strLess] at h
  | [], _ :: _, [], _, h => by simp [strLess] at h
  | [], _ :: _, _ :: _, _, _ => by simp [strLess]
  | _ :: _, [], _, h, _ => by simp [strLess] at h
  | _ :: _, _ :: _, [], _, h => by simp [strLess] at h
  | x :: xs, y :: ys, z :: zs, h1, h2 => by
    simp only [strLess, Bool.or_eq_true, Bool.and_eq_true, decide_eq_true_eq] at h1 h2 ⊢
    rcases h1 with h1 | ⟨e1, h1⟩
    · rcases h2 with h2 | ⟨e2, _⟩
      · exact Or.inl (lt_trans h1 h2)
      · exact Or.inl (e2 ▸ h1)
    · rcases h2 with h2 | ⟨e2, h2⟩
      · exact Or.inl (e1 ▸ h2)
      · exact Or.inr ⟨e1.trans e2, strLess_trans xs ys zs h1 h2⟩

/-- Two strings neither of which is below the other are the same string. -/
theorem strLess_connex : ∀ a b : GoString,
    strLess a b = false → strLess b a = false → a = b
  | [], [], _, _ => rfl
  | [], _ :: _, h, _ => by simp [strLess] at h
  | _ :: _, [], _, h => by simp [strLess] at h
  | x :: xs, y :: ys, h1, h2 => by
    simp only [strLess, Bool.or_eq_false_iff, Bool.and_eq_false_iff, decide_eq_false_iff_not,
      not_lt] at h1 h2
    have hxy : x = y := le_antisymm h2.1 h1.1
    subst hxy
    have t1 : strLess xs ys = false := by
      rcases h1.2 with h | h
      · exact absurd rfl h
      · exact h
    have t2 : strLess ys xs = false := by
      rcases h2.2 with h | h
      · exact absurd rfl h
      · exact h
    rw [strLess_connex xs ys t1 t2]

/-- Of two strings at most one is below the other. -/
theorem strLess_asymm (a b : GoString) (h : strLess a b = true) : strLess b a = false := by
  cases hba : strLess b a with
  | false => rfl
  | true =>
    have := strLess_trans a b a h hba
    rw [strLess_irrefl] at this
    exact absurd this (by decide)

/-- The insertion step adds its argument and nothing else. -/
theorem insertString_perm (x : GoString) (l : List GoString) :
    (insertString x l).Perm (x :: l) := by
  induction l with
  | nil => exact List.Perm.refl _
  | cons y ys ih =>
    unfold insertString
    split
    · exact (List.Perm.cons y ih).trans (List.Perm.swap x y ys)
    · exact List.Perm.refl _

/-- The sort rearranges its argument. -/
theorem sortStrings_perm (l : List GoString) : (sortStrings l).Perm l := by
  induction l with
  | nil => exact List.Perm.refl _
  | cons x xs ih =>
    exact (insertString_perm x (sortStrings xs)).trans (List.Perm.cons x ih)

/-- Inserting a new string into a strictly ascending list keeps it strictly ascending. -/
theorem insertString_sorted (x : GoString) (l : List GoString)
    (hl : l.Pairwise (fun a b => strLess a b = true)) (hx : x ∉ l) :
    (insertString x l).Pairwise (fun a b => strLess a b = true) := by
  induction l with
  | nil => simp [insertString]
  | cons y ys ih =>
    have hy : ∀ z ∈ ys, strLess y z = true := (List.pairwise_cons.1 hl).1
    have hys : ys.Pairwise (fun a b => strLess a b = true) := (List.pairwise_cons.1 hl).2
    have hxy : x ≠ y := fun e => hx (e ▸ List.mem_cons_self _ _)
    have hxys : x ∉ ys := fun m => hx (List.mem_cons_of_mem _ m)
    unfold insertString
    split
    · rename_i hlt
      refine List.pairwise_cons.2 ⟨?_, ih hys hxys⟩
      intro z hz
      rcases List.mem_cons.1 ((insertString_perm x ys).subset hz) with e | m
      · exact e ▸ hlt
      · exact hy z m
    · rename_i hnlt
      have hlt : strLess x y = true := by
        cases hc : strLess x y with
        | true => rfl
        | false =>
          exact absurd (strLess_connex x y hc (by simpa using hnlt)) hxy
      refine List.pairwise_cons.2 ⟨?_, hl⟩
      intro z hz
      rcases List.mem_cons.1 hz with e | m
      · exact e ▸ hlt
      · exact strLess_trans x y z hlt (hy z m)

/-- Sorting a list without repetitions gives a strictly ascending list. -/
theorem sortStrings_sorted (l : List GoString) (hl : l.Nodup) :
    (sortStrings l).Pairwise (fun a b => strLess a b = true) := by
  induction l with
  | nil => exact List.Pairwise.nil
  | cons x xs ih =>
    have hx : x ∉ xs := (List.nodup_cons.1 hl).1
    have hxs : xs.Nodup := (List.nodup_cons.1 hl).2
    exact insertString_sorted x (sortStrings xs) (ih hxs)
      (fun m => hx ((sortStrings_perm xs).subset m))

/-- Two strictly ascending lists with the same elements are the same list. -/
theorem sorted_unique (l1 l2 : List GoString) (hp : l1.Perm l2)
    (h1 : l1.Pairwise (fun a b => strLess a b = true))
    (h2 : l2.Pairwise (fun a b => strLess a b = true)) : l1 = l2 := by
  haveI : IsAntisymm GoString (fun a b => strLess a b = true) :=
    ⟨fun a b hab hba => by
      have := strLess_asymm a b hab
      rw [hba] at this
      exact absurd this (by decide)⟩
  exact List.eq_of_perm_of_sorted hp h1 h2

/-- The loop of `callees` copies the keys in the order it visits them. -/
theorem foldl_append_singleton (order acc : List GoString) :
    order.foldl (fun ret k => ret ++ [k]) acc = acc ++ order := by
  induction order generalizing acc with
  | nil => simp
  | cons k ks ih => simp [ih]

/-- Delivery of a sequence adds the names of its Before notifications to the set. -/
theorem deliverAll_eq (ns : List Notification) (u : uniqGoFuncs) :
    deliverAll u ns = u ∪ (beforeNames ns).toFinset := by
  induction ns generalizing u with
  | nil => simp [deliverAll, beforeNames]
  | cons n ns ih =>
    have hstep : deliverAll u (n :: ns) = deliverAll (deliver u n) ns := rfl
    rw [hstep, ih]
    cases n with
    | before d =>
      ext k
      simp [deliver, uniqGoFuncs.Before, beforeNames, or_assoc, or_comm, or_left_comm]
    | after d => simp [deliver, uniqGoFuncs.After, beforeNames]
    | abort d => simp [deliver, uniqGoFuncs.Abort, beforeNames]

/-- A name is among the Before names of a sequence exactly when some Before notification of
the sequence carries it. -/
theorem mem_beforeNames (ns : List Notification) (k : GoString) :
    k ∈ beforeNames ns ↔ ∃ d : FunctionDefinition, Notification.before d ∈ ns ∧ d.DebugName = k := by
  induction ns with
  | nil => simp [beforeNames]
  | cons n ns ih =>
    cases n with
    | before d =>
      simp only [beforeNames, List.mem_cons, ih]
      constructor
      · rintro (h | ⟨e, he, hk⟩)
        · exact ⟨d, Or.inl rfl, h.symm⟩
        · exact ⟨e, Or.inr he, hk⟩
      · rintro ⟨e, he | he, hk⟩
        · cases he; exact Or.inl hk.symm
        · exact Or.inr ⟨e, he, hk⟩
    | after d => simp [beforeNames, ih]
    | abort d => simp [beforeNames, ih]

/-- Claim C5: for every finite sequence of notifications delivered to a uniqGoFuncs that
starts empty, the key set is the set of the DebugName() values of the Before notifications:
a name is a key exactly when some Before carried it, the range loop meets each such name
exactly once, and two sequences whose Before notifications carry the same names, however
often and in whatever order, leave the same set.  Before is idempotent per name; After and
Abort never change the set.  Five rounds of Before and After for random_get and for fd_write
leave exactly the two keys. -/
theorem C5_listener_dedup :
    (∀ ns : List Notification,
      deliverAll uniqGoFuncs.empty ns = (beforeNames ns).toFinset) ∧
    (∀ (ns : List Notification) (k : GoString),
      k ∈ deliverAll uniqGoFuncs.empty ns ↔
        ∃ d : FunctionDefinition, Notification.before d ∈ ns ∧ d.DebugName = k) ∧
    (∀ (ns : List Notification) (order : List GoString),
      IsRangeOrder (deliverAll uniqGoFuncs.empty ns) order →
        ∀ d : FunctionDefinition, Notification.before d ∈ ns →
          order.countP (fun k => decide (k = d.DebugName)) = 1) ∧
    (∀ ns1 ns2 : List Notification,
      (∀ k : GoString, k ∈ beforeNames ns1 ↔ k ∈ beforeNames ns2) →
        deliverAll uniqGoFuncs.empty ns1 = deliverAll uniqGoFuncs.empty ns2) ∧
    (∀ (u : uniqGoFuncs) (d : FunctionDefinition), (u.Before d).Before d = u.Before d) ∧
    (∀ (u : uniqGoFuncs) (d : FunctionDefinition), u.After d = u ∧ u.Abort d = u) ∧
    (deliverAll uniqGoFuncs.empty (exampleNotifications 5) =
        {goStr "wasi_snapshot_preview1.fd_write", goStr "wasi_snapshot_preview1.random_get"} ∧
      (deliverAll uniqGoFuncs.empty (exampleNotifications 5)).card = 2) := by
  have hempty : ∀ ns : List Notification,
      deliverAll uniqGoFuncs.empty ns = (beforeNames ns).toFinset := by
    intro ns
    rw [deliverAll_eq]
    simp [uniqGoFuncs.empty]
  refine ⟨hempty, ?_, ?_, ?_, ?_, fun u d => ⟨rfl, rfl⟩, ?_⟩
  · intro ns k
    rw [hempty, List.mem_toFinset, mem_beforeNames]
  · intro ns order ho d hd
    have hmem : d.DebugName ∈ order := by
      have h1 : d.DebugName ∈ deliverAll uniqGoFuncs.empty ns := by
        rw [hempty, List.mem_toFinset, mem_beforeNames]
        exact ⟨d, hd, rfl⟩
      rw [← ho.2] at h1
      exact List.mem_toFinset.1 h1
    exact List.count_eq_one_of_mem ho.1 hmem
  · intro ns1 ns2 h
    rw [hempty, hempty]
    ext k
    simp [h k]
  · intro u d
    simp [uniqGoFuncs.Before]
  · decide

/-- Claim C5 at two sequences that notify the same two names in different orders and
numbers: both leave the same set. -/
theorem C5_listener_dedup_witness :
    (∀ k : GoString,
      k ∈ beforeNames
          [Notification.before (FunctionDefinition.mk (goStr "a") (some 0)),
           Notification.before (FunctionDefinition.mk (goStr "b") (some 1)),
           Notification.before (FunctionDefinition.mk (goStr "a") (some 0))] ↔
      k ∈ beforeNames
          [Notification.before (FunctionDefinition.mk (goStr "b") (some 1)),
           Notification.abort (FunctionDefinition.mk (goStr "c") none),
           Notification.before (FunctionDefinition.mk (goStr "a") (some 0))]) ∧
    deliverAll uniqGoFuncs.empty
        [Notification.before (FunctionDefinition.mk (goStr "a") (some 0)),
         Notification.before (FunctionDefinition.mk (goStr "b") (some 1)),
         Notification.before (FunctionDefinition.mk (goStr "a") (some 0))] =
      deliverAll uniqGoFuncs.empty
        [Notification.before (FunctionDefinition.mk (goStr "b") (some 1)),
         Notification.abort (FunctionDefinition.mk (goStr "c") none),
         Notification.before (FunctionDefinition.mk (goStr "a") (some 0))] :=
  have h : ∀ k : GoString,
      k ∈ beforeNames
          [Notification.before (FunctionDefinition.mk (goStr "a") (some 0)),
           Notification.before (FunctionDefinition.mk (goStr "b") (some 1)),
           Notification.before (FunctionDefinition.mk (goStr "a") (some 0))] ↔
      k ∈ beforeNames
          [Notification.before (FunctionDefinition.mk (goStr "b") (some 1)),
           Notification.abort (FunctionDefinition.mk (goStr "c") none),
           Notification.before (FunctionDefinition.mk (goStr "a") (some 0))] := by
    intro k
    simp only [beforeNames, FunctionDefinition.DebugName, List.mem_cons, List.mem_singleton,
      List.not_mem_nil, or_false]
    tauto
  ⟨h, C5_listener_dedup.2.2.2.1 _ _ h⟩

/-- Claim C6: for every set u and every order in which the range loop may visit its keys,
callees returns a strictly ascending (byte-wise lexicographic) list without repetitions whose
elements are exactly the keys of u, of length len(u); the list is the same for every visiting
order; u is unchanged.  For the keys random_get and fd_write it is fd_write, random_get. -/
theorem C6_callees_sorted :
    (∀ (u : uniqGoFuncs) (order : List GoString), IsRangeOrder u order →
      (u.callees order).1.Pairwise (fun a b => strLess a b = true) ∧
      (u.callees order).1.Nodup ∧
      (∀ k : GoString, k ∈ (u.callees order).1 ↔ k ∈ u) ∧
      (u.callees order).1.length = u.card ∧
      (∀ order2 : List GoString, IsRangeOrder u order2 →
        (u.callees order2).1 = (u.callees order).1) ∧
      (u.callees order).2 = u) ∧
    (∀ order : List GoString,
      IsRangeOrder {goStr "wasi_snapshot_preview1.random_get",
                    goStr "wasi_snapshot_preview1.fd_write"} order →
      (uniqGoFuncs.callees {goStr "wasi_snapshot_preview1.random_get",
                            goStr "wasi_snapshot_preview1.fd_write"} order).1 =
        [goStr "wasi_snapshot_preview1.fd_write", goStr "wasi_snapshot_preview1.random_get"]) := by
  have hret : ∀ (u : uniqGoFuncs) (order : List GoString),
      (u.callees order).1 = sortStrings order := by
    intro u order
    simp [uniqGoFuncs.callees, foldl_append_singleton]
  have hsame : ∀ (u : uniqGoFuncs) (o1 o2 : List GoString),
      IsRangeOrder u o1 → IsRangeOrder u o2 → (u.callees o2).1 = (u.callees o1).1 := by
    intro u o1 o2 h1 h2
    rw [hret, hret]
    have hp : o2.Perm o1 := by
      refine (List.perm_ext_iff_of_nodup h2.1 h1.1).2 (fun k => ?_)
      rw [← List.mem_toFinset, ← List.mem_toFinset (l := o1), h1.2, h2.2]
    exact sorted_unique _ _
      (((sortStrings_perm o2).trans hp).trans (sortStrings_perm o1).symm)
      (sortStrings_sorted o2 h2.1) (sortStrings_sorted o1 h1.1)
  constructor
  · intro u order ho
    have hp := sortStrings_perm order
    refine ⟨?_, ?_, ?_, ?_, fun o2 h2 => hsame u order o2 ho h2, rfl⟩
    · rw [hret]; exact sortStrings_sorted order ho.1
    · rw [hret]; exact hp.nodup_iff.2 ho.1
    · intro k
      rw [hret, hp.mem_iff, ← ho.2, List.mem_toFinset]
    · rw [hret, hp.length_eq, ← ho.2, List.toFinset_card_of_nodup ho.1]
  · intro order ho
    have hfix : IsRangeOrder {goStr "wasi_snapshot_preview1.random_get",
                    goStr "wasi_snapshot_preview1.fd_write"}
        [goStr "wasi_snapshot_preview1.random_get", goStr "wasi_snapshot_preview1.fd_write"] := by
      decide
    rw [hsame _ _ order hfix ho]
    decide

/-- Claim C6 at the two keys of the example, visited with random_get first: the list is
strictly ascending and is fd_write followed by random_get. -/
theorem C6_callees_sorted_witness :
    IsRangeOrder {goStr "wasi_snapshot_preview1.random_get",
                  goStr "wasi_snapshot_preview1.fd_write"}
      [goStr "wasi_snapshot_preview1.random_get", goStr "wasi_snapshot_preview1.fd_write"] ∧
    (uniqGoFuncs.callees {goStr "wasi_snapshot_preview1.random_get",
                          goStr "wasi_snapshot_preview1.fd_write"}
      [goStr "wasi_snapshot_preview1.random_get",
       goStr "wasi_snapshot_preview1.fd_write"]).1.Pairwise (fun a b => strLess a b = true) ∧
    (uniqGoFuncs.callees {goStr "wasi_snapshot_preview1.random_get",
                          goStr "wasi_snapshot_preview1.fd_write"}
      [goStr "wasi_snapshot_preview1.random_get", goStr "wasi_snapshot_preview1.fd_write"]).1 =
      [goStr "wasi_snapshot_preview1.fd_write", goStr "wasi_snapshot_preview1.random_get"] :=
  have h : IsRangeOrder {goStr "wasi_snapshot_preview1.random_get",
                  goStr "wasi_snapshot_preview1.fd_write"}
      [goStr "wasi_snapshot_preview1.random_get", goStr "wasi_snapshot_preview1.fd_write"] := by
    decide
  ⟨h, (C6_callees_sorted.1 _ _ h).1, C6_callees_sorted.2 _ h⟩

/-- Claim C7: NewFunctionListener declines exactly when def.GoFunction() is nil; otherwise it
returns the receiver u itself, whatever the definition; in both cases the set is unchanged. -/
theorem C7_factory_decision (u : uniqGoFuncs) (d : FunctionDefinition) :
    ((u.NewFunctionListener d).1 = none ↔ d.GoFunction = none) ∧
    (d.GoFunction ≠ none → (u.NewFunctionListener d).1 = some u) ∧
    (u.NewFunctionListener d).2 = u := by
  unfold uniqGoFuncs.NewFunctionListener
  by_cases h : d.GoFunction = none
  · simp [h]
  · simp [h]

/-- Claim C7 at a host function, which is accepted with the receiver as listener, and at a
function with no Go function, which is declined. -/
theorem C7_factory_decision_witness :
    (uniqGoFuncs.NewFunctionListener {goStr "seen"}
      (FunctionDefinition.mk (goStr "wasi_snapshot_preview1.fd_write") (some 1))).1 =
      some {goStr "seen"} ∧
    (uniqGoFuncs.NewFunctionListener {goStr "seen"}
      (FunctionDefinition.mk (goStr "rand") none)).1 = none :=
  ⟨(C7_factory_decision {goStr "seen"}
      (FunctionDefinition.mk (goStr "wasi_snapshot_preview1.fd_write") (some 1))).2.1
      (by decide),
   (C7_factory_decision {goStr "seen"}
      (FunctionDefinition.mk (goStr "rand") none)).1.2 rfl⟩

/-! ## Theorems: host-call slot -/

/-- A transcribed word takes `w` bytes. -/
theorem putWord_length (w v : Nat) : (putWord w v).length = w := by
  induction w generalizing v with
  | zero => rfl
  | succ w ih => simp [putWord, ih]

/-- Reading a transcribed word gives back its `w` low bytes, whatever follows it. -/
theorem getWord_putWord (w v : Nat) (rest : List Nat) :
    getWord w (putWord w v ++ rest) = v % 256 ^ w := by
  induction w generalizing v with
  | zero => simp [getWord, Nat.mod_one]
  | succ w ih =>
    show v % 256 + 256 * getWord w (putWord w (v / 256) ++ rest) = v % 256 ^ (w + 1)
    rw [ih, pow_succ, mul_comm (256 ^ w) 256, Nat.mod_mul]

/-- Claim C2: for every boxed Go function goFn whose two words fit `w` bytes and every
buffer of at least two words, writeIface succeeds, keeps the length of the buffer and its
bytes after the two words, and readIface on the result gives back goFn itself; so when goFn
asserts to an api.GoFunction f, invoking the slot with any host state and arguments is the
call of f on them.  The test, with a buffer of 100 bytes, ends with called = true. -/
theorem C2_host_call_round_trip (w : Nat) (goFn : Iface) (buf : List Nat)
    (ht : goFn.typeTag < 256 ^ w) (hd : goFn.dataRef < 256 ^ w) (hb : 2 * w ≤ buf.length) :
    (∃ slot : List Nat,
      writeIface w goFn buf = some slot ∧
      slot.length = buf.length ∧
      slot.drop (2 * w) = buf.drop (2 * w) ∧
      readIface w slot = some goFn ∧
      (∀ (σ : Type) (host : Host σ) (f : GoFunction σ), host goFn = some f →
        ∀ (st : σ) (args : List Nat), invoke host w slot st args = some (f st args))) ∧
    (2 * w ≤ 100 → Test_writeIface_readIface w goFn = some true) := by
  have key : ∀ b : List Nat, 2 * w ≤ b.length →
      writeIface w goFn b =
        some (putWord w goFn.typeTag ++ putWord w goFn.dataRef ++ b.drop (2 * w)) ∧
      (putWord w goFn.typeTag ++ putWord w goFn.dataRef ++ b.drop (2 * w)).length = b.length ∧
      (putWord w goFn.typeTag ++ putWord w goFn.dataRef ++ b.drop (2 * w)).drop (2 * w) =
        b.drop (2 * w) ∧
      readIface w (putWord w goFn.typeTag ++ putWord w goFn.dataRef ++ b.drop (2 * w)) =
        some goFn := by
    intro b hlen
    have hl : (putWord w goFn.typeTag ++ putWord w goFn.dataRef ++ b.drop (2 * w)).length =
        b.length := by
      simp only [List.length_append, putWord_length, List.length_drop]
      omega
    refine ⟨?_, hl, ?_, ?_⟩
    · unfold writeIface
      rw [if_neg (by omega)]
    · have h2 : (putWord w goFn.typeTag ++ putWord w goFn.dataRef).length = 2 * w := by
        simp only [List.length_append, putWord_length]
        omega
      exact List.drop_left' h2
    · unfold readIface
      rw [if_neg (by omega)]
      have hdrop : (putWord w goFn.typeTag ++ putWord w goFn.dataRef ++ b.drop (2 * w)).drop w =
          putWord w goFn.dataRef ++ b.drop (2 * w) := by
        have h1 : (putWord w goFn.typeTag).length = w := putWord_length w _
        rw [List.append_assoc]
        exact List.drop_left' h1
      rw [hdrop, List.append_assoc, getWord_putWord, getWord_putWord,
        Nat.mod_eq_of_lt ht, Nat.mod_eq_of_lt hd]
  constructor
  · obtain ⟨h1, h2, h3, h4⟩ := key buf hb
    refine ⟨_, h1, h2, h3, h4, ?_⟩
    intro σ host f hf st args
    unfold invoke
    rw [h4]
    simp only [hf]
  · intro h100
    obtain ⟨h1, _, _, h4⟩ := key (List.replicate 100 0) (by simpa using h100)
    unfold Test_writeIface_readIface
    simp only [h1, h4, if_true]

/-- Claim C2 at words of eight bytes, a boxed value with tag 4872032 and reference
824633795397, and a buffer of 100 zero bytes. -/
theorem C2_host_call_round_trip_witness :
    (4872032 < 256 ^ 8 ∧ 824633795397 < 256 ^ 8 ∧ 2 * 8 ≤ (List.replicate 100 0).length) ∧
    (∃ slot : List Nat,
      writeIface 8 (Iface.mk 4872032 824633795397) (List.replicate 100 0) =
        some slot ∧
      readIface 8 slot = some (Iface.mk 4872032 824633795397)) ∧
    Test_writeIface_readIface 8 (Iface.mk 4872032 824633795397) = some true :=
  have h := C2_host_call_round_trip 8 (Iface.mk 4872032 824633795397)
    (List.replicate 100 0) (by decide) (by decide) (by decide)
  ⟨⟨by decide, by decide, by decide⟩,
   h.1.elim (fun slot hs => ⟨slot, hs.1, hs.2.2.2.1⟩),
   h.2 (by decide)⟩

end Wazero
